import Mathlib

/-!
Verification model of the fx-collector repository.

The definitions below are a shallow embedding of the Go sources:
* `internal/adapters/storage/csv_spread_recorder.go` (the partitioned CSV
  record writer: `roundPrice`, `Record`, `RecordBatch`, `Flush`, `Close`,
  `getWriter`), and
* `internal/services/collector_service.go` (the orchestrator's `Stop`).

Modelling conventions:
* Go strings are modelled as `List Char`; `time.Time` values are modelled by
  their broken-down UTC fields (`GoTime`), matching how `Format` renders them
  for times stored in UTC.
* `float64` prices are modelled as exact rationals `ℚ`; `math.Round` is
  round-half-away-from-zero, and `strconv.FormatFloat(x, 'f', p, 64)` is
  modelled as exact decimal rendering with `p` fractional digits
  (ties-to-even, as Go's fixed-precision formatter rounds), or the shortest
  terminating decimal when `p < 0`.
* The writer's three Go maps (`writers`, `buffers`, `files`), which always
  share the same key set, are modelled as one list of `Triple` records; file
  contents live in an association list `FS` from paths to rows.  Each triple
  carries boolean fault flags saying whether its csv-writer flush, bufio
  flush, or file close would fail; OS-level directory/open failures are not
  modelled (no claim depends on them).
-/

namespace FxCollector

/-- Decimal digit characters; `dTable n` is the digit for `n ∈ [0,9]`. -/
def dTable : Nat → Char
  | 0 => '0'
  | 1 => '1'
  | 2 => '2'
  | 3 => '3'
  | 4 => '4'
  | 5 => '5'
  | 6 => '6'
  | 7 => '7'
  | 8 => '8'
  | _ => '9'

/-- The decimal digit character of `n % 10`. -/
def digitChar (n : Nat) : Char := dTable (n % 10)

/-- Numeric value of a digit character (inverse of `dTable` on digits). -/
def digitVal (c : Char) : Nat :=
  if c = '0' then 0 else if c = '1' then 1 else if c = '2' then 2
  else if c = '3' then 3 else if c = '4' then 4 else if c = '5' then 5
  else if c = '6' then 6 else if c = '7' then 7 else if c = '8' then 8 else 9

/-- Little-endian digit list of `n` (least significant digit first); the
first argument is fuel, always called with fuel ≥ n. -/
def digitsRevAux : Nat → Nat → List Char
  | _, 0 => []
  | 0, _ + 1 => []
  | f + 1, n + 1 => digitChar (n + 1) :: digitsRevAux f ((n + 1) / 10)

/-- Decimal digit string of a natural number, as Go's `strconv` renders it. -/
def natToDigits (n : Nat) : List Char :=
  if n = 0 then ['0'] else (digitsRevAux n n).reverse

/-- Decimal rendering of an integer (Go `strconv.Itoa`). -/
def intToDigits (i : Int) : List Char :=
  if i < 0 then '-' :: natToDigits i.natAbs else natToDigits i.natAbs

/-- Zero-pad a digit list on the left to width `p`. -/
def padZeros (p : Nat) (l : List Char) : List Char :=
  List.replicate (p - l.length) '0' ++ l

/-- Two-digit zero-padded rendering, as Go `Format` layouts `"01"`, `"02"`,
`"15"`, `"04"`, `"05"` produce for field values below 100. -/
def pad2 (n : Nat) : List Char := [digitChar (n / 10), digitChar n]

/-- Four-digit zero-padded rendering, as Go `Format` layout `"2006"` produces
for years below 10000. -/
def pad4 (n : Nat) : List Char :=
  [digitChar (n / 1000), digitChar (n / 100), digitChar (n / 10), digitChar n]

/-- Nine-digit zero-padded rendering of a nanosecond count below 10^9. -/
def pad9 (n : Nat) : List Char :=
  [digitChar (n / 100000000), digitChar (n / 10000000), digitChar (n / 1000000),
   digitChar (n / 100000), digitChar (n / 10000), digitChar (n / 1000),
   digitChar (n / 100), digitChar (n / 10), digitChar n]

/-- Remove trailing `'0'` characters. -/
def stripZeros (l : List Char) : List Char :=
  (l.reverse.dropWhile (fun c => c = '0')).reverse

/-- A Go `time.Time` in UTC, broken into the calendar fields that
`Format` renders.  A value is `Valid` when its fields are in range. -/
structure GoTime where
  year : Nat
  month : Nat
  day : Nat
  hour : Nat
  minute : Nat
  sec : Nat
  nsec : Nat
deriving DecidableEq

/-- Field ranges of a real `time.Time` (year bounded so that `"2006"`
renders four digits). -/
def GoTime.Valid (t : GoTime) : Prop :=
  t.year < 10000 ∧ 0 < t.month ∧ t.month ≤ 12 ∧ 0 < t.day ∧ t.day ≤ 31 ∧
    t.hour < 24 ∧ t.minute < 60 ∧ t.sec < 60 ∧ t.nsec < 1000000000

instance (t : GoTime) : Decidable t.Valid := by
  unfold GoTime.Valid; infer_instance

/-- Chronological (field-lexicographic) order on UTC calendar times. -/
def GoTime.chronLT (a b : GoTime) : Prop :=
  a.year < b.year ∨ (a.year = b.year ∧
    (a.month < b.month ∨ (a.month = b.month ∧
      (a.day < b.day ∨ (a.day = b.day ∧
        (a.hour < b.hour ∨ (a.hour = b.hour ∧
          (a.minute < b.minute ∨ (a.minute = b.minute ∧
            (a.sec < b.sec ∨ (a.sec = b.sec ∧ a.nsec < b.nsec)))))))))))

instance (a b : GoTime) : Decidable (a.chronLT b) := by
  unfold GoTime.chronLT; infer_instance

/-- `timestamp.Format("20060102")`. -/
def dateStr (t : GoTime) : List Char := pad4 t.year ++ pad2 t.month ++ pad2 t.day

/-- `timestamp.Format("15")`. -/
def hourStr (t : GoTime) : List Char := pad2 t.hour

/-- The fractional-second part of `Format(time.RFC3339Nano)`: nine digits of
the nanosecond count with trailing zeros removed, preceded by `'.'`, or
empty when the nanosecond count is zero. -/
def fracNano (n : Nat) : List Char :=
  if n = 0 then [] else '.' :: stripZeros (pad9 n)

/-- The fixed-width `"2006-01-02T15:04:05"` part of RFC 3339 rendering. -/
def fixed19 (t : GoTime) : List Char :=
  pad4 t.year ++ '-' :: pad2 t.month ++ '-' :: pad2 t.day ++
    'T' :: pad2 t.hour ++ ':' :: pad2 t.minute ++ ':' :: pad2 t.sec

/-- `timestamp.Format(time.RFC3339Nano)` for a UTC time: the fixed 19-char
date-time, the trimmed fractional seconds, and the explicit UTC
designator `'Z'`. -/
def formatRFC3339Nano (t : GoTime) : List Char :=
  fixed19 t ++ fracNano t.nsec ++ ['Z']

/-- Go `math.Round`: round to nearest integer, halves away from zero. -/
def goRound (x : ℚ) : ℤ :=
  if x < 0 then -⌊-x + 1/2⌋ else ⌊x + 1/2⌋

/-- Round to nearest integer with ties to even, the rounding Go's
fixed-precision decimal formatter applies to an exact value. -/
def halfEven (x : ℚ) : ℤ :=
  if x - ⌊x⌋ < 1/2 then ⌊x⌋
  else if 1/2 < x - ⌊x⌋ then ⌊x⌋ + 1
  else if Even ⌊x⌋ then ⌊x⌋ else ⌊x⌋ + 1

/-- Render the integer `n` as a decimal with exactly `p` digits after the
decimal point (no point when `p = 0`), `n` being the value scaled by `10^p`.
This is the shape of Go's `%.pf` output. -/
def fmtScaled (n : Int) (p : Nat) : List Char :=
  (if n < 0 then ['-'] else []) ++ natToDigits (n.natAbs / 10 ^ p) ++
    (if p = 0 then [] else '.' :: padZeros p (natToDigits (n.natAbs % 10 ^ p)))

/-- Exact decimal rendering of `y` with `p` fractional digits (no rounding
needed: callers ensure `y * 10^p` is an integer). -/
def fmtExactAt (y : ℚ) (p : Nat) : List Char := fmtScaled (y * 10 ^ p).num p

/-- Shortest terminating decimal rendering of `y`, modelling
`strconv.FormatFloat(y, 'f', -1, 64)` for values that are exact decimals. -/
def shortestDec (y : ℚ) : List Char :=
  match (List.range 400).find? (fun k => (y * 10 ^ k).den = 1) with
  | some k => fmtExactAt y k
  | none => ['?']

/-- `strconv.FormatFloat(y, 'f', prec, 64)` on the exact value `y`:
negative precision means shortest representation; otherwise the value is
rounded (ties to even) at `prec` decimal places and rendered with exactly
`prec` fractional digits. -/
def formatFloatF (y : ℚ) (prec : Int) : List Char :=
  if prec < 0 then shortestDec y
  else fmtScaled (halfEven (y * 10 ^ prec.toNat)) prec.toNat

/-- `roundPrice` from csv_spread_recorder.go:
no rounding when `decimals ≤ 0`, else `math.Round(price*10^d) / 10^d`. -/
def roundPrice (price : ℚ) (decimals : Int) : ℚ :=
  if decimals ≤ 0 then price
  else (goRound (price * 10 ^ decimals.toNat) : ℚ) / 10 ^ decimals.toNat

/-- `domain.PriceData` (domain/price_data.go), with `time.Time` as `GoTime`
and `float64` prices as exact rationals. -/
structure PriceData where
  Timestamp : GoTime
  Uic : Int
  Ticker : List Char
  AssetType : List Char
  Bid : ℚ
  Ask : ℚ
  Spread : ℚ
  Decimals : Int
deriving DecidableEq

/-- One CSV row: a list of fields. -/
abbrev Row := List (List Char)

/-- The data row `Record` writes for one observation (csv_spread_recorder.go,
`Record`): RFC3339Nano timestamp, uic, ticker, asset type, then bid, ask and
spread rounded by `roundPrice` and formatted with `Decimals` precision. -/
def rowOf (pd : PriceData) : Row :=
  [formatRFC3339Nano pd.Timestamp,
   intToDigits pd.Uic,
   pd.Ticker,
   pd.AssetType,
   formatFloatF (roundPrice pd.Bid pd.Decimals) pd.Decimals,
   formatFloatF (roundPrice pd.Ask pd.Decimals) pd.Decimals,
   formatFloatF (roundPrice pd.Spread pd.Decimals) pd.Decimals]

/-- The header row written to newly created partition files. -/
def headerRow : Row :=
  ["timestamp".data, "uic".data, "ticker".data, "asset_type".data,
   "bid".data, "ask".data, "spread".data]

/-- One open resource triple of the writer: the Go code keeps, per partition
key, a `*csv.Writer`, a `*bufio.Writer` and an `*os.File` in three maps with
identical key sets; here the three are one record.  `csvBuf`/`bioBuf` are the
rows buffered in the csv writer and in the bufio writer; `tk` is the ticker
the triple was created for; `wErr`, `bErr`, `cErr` say whether the csv-writer
flush, the bufio flush, or the file close would fail. -/
structure Triple where
  key : List Char
  tk : List Char
  path : List Char
  csvBuf : List Row
  bioBuf : List Row
  wErr : Bool
  bErr : Bool
  cErr : Bool
deriving DecidableEq

/-- Durable file system: association list from path to rows on disk. -/
abbrev FS := List (List Char × List Row)

/-- Paths of existing files. -/
def fsPaths (fs : FS) : List (List Char) := fs.map (fun e => e.1)

/-- Append rows to a file, creating it when absent. -/
def fsAppend (fs : FS) (path : List Char) (rows : List Row) : FS :=
  if path ∈ fsPaths fs then
    fs.map (fun e => if e.1 = path then (e.1, e.2 ++ rows) else e)
  else fs ++ [(path, rows)]

/-- `CSVSpreadRecorder` state: base directory, open triples (the three Go
maps), and the file system it has written. -/
structure RecState where
  baseDir : List Char
  triples : List Triple
  fs : FS
deriving DecidableEq

/-- A fresh recorder over base directory `base` on a file system `fs0`
(`NewCSVSpreadRecorder`: all maps empty). -/
def initState (base : List Char) (fs0 : FS) : RecState :=
  { baseDir := base, triples := [], fs := fs0 }

/-- Keys of the currently open triples. -/
def keysOf (s : RecState) : List (List Char) := s.triples.map (fun t => t.key)

/-- The partition key `fmt.Sprintf("%s_%s_%s", ticker, dateStr, hourStr)`. -/
def mkKey (tk dateS hourS : List Char) : List Char :=
  tk ++ '_' :: dateS ++ '_' :: hourS

/-- The key `getWriter` computes for an observation. -/
def keyFor (tk : List Char) (ts : GoTime) : List Char :=
  mkKey tk (dateStr ts) (hourStr ts)

/-- The backing file path `filepath.Join(baseDir, dateStr, ticker_HH.csv)`. -/
def pathFor (base tk : List Char) (ts : GoTime) : List Char :=
  base ++ '/' :: dateStr ts ++ '/' :: tk ++ '_' :: hourStr ts ++ ".csv".data

/-- Number of fractional digits of a rendered decimal: the characters after
the last `'.'` (counted from the right). -/
def fracLen (l : List Char) : Nat :=
  (l.reverse.takeWhile (fun c => decide (c ≠ '.'))).length

/-- The open triple registered under a key, if any. -/
def findTriple (s : RecState) (k : List Char) : Option Triple :=
  s.triples.find? (fun t => decide (t.key = k))

/-- Number of open triples created for series identifier `T`. -/
def countTk (T : List Char) (s : RecState) : Nat :=
  s.triples.countP (fun t => decide (t.tk = T))

/-- Structural invariant of a registered triple: its key is its ticker
followed by `'_'` and the partition suffix. -/
def KeyShape (t : Triple) : Prop :=
  ∃ rest, t.key = t.tk ++ '_' :: rest

/-- Writer well-formedness: every open triple's key extends its ticker, and
no two open triples belong to the same ticker. -/
def WFInv (s : RecState) : Prop :=
  (∀ t ∈ s.triples, KeyShape t) ∧ s.triples.Pairwise (fun a b => a.tk ≠ b.tk)

/-- The cleanup-scan condition of `getWriter` (line 197):
`len(oldKey) > len(ticker) && oldKey[:len(ticker)] == ticker && oldKey != key`.
Note it matches by string prefix, not by exact ticker equality. -/
def evictCond (tk newKey oldKey : List Char) : Prop :=
  tk.length < oldKey.length ∧ oldKey.take tk.length = tk ∧ oldKey ≠ newKey

instance (tk newKey oldKey : List Char) : Decidable (evictCond tk newKey oldKey) := by
  unfold evictCond; infer_instance

/-- Best-effort release of an evicted triple (getWriter's cleanup loop):
flush the csv writer into the bufio writer, flush the bufio writer to the
file, close the file; errors are only logged, so a failing stage simply
loses the rows still behind it. -/
def releaseFs (fs : FS) (t : Triple) : FS :=
  let bio := if t.wErr then t.bioBuf else t.bioBuf ++ t.csvBuf
  if t.bErr then fs else fsAppend fs t.path bio

/-- The file system after the cleanup scan: every open triple matching the
eviction condition has been best-effort flushed and closed. -/
def rotFs (s : RecState) (tk : List Char) (ts : GoTime) : FS :=
  (s.triples.filter (fun t => decide (evictCond tk (keyFor tk ts) t.key))).foldl
    releaseFs s.fs

/-- The triple `getWriter` registers for a newly resolved partition: header
buffered only when the backing file did not exist at open time (the
`os.Stat` check, performed after the cleanup scan). -/
def freshTriple (s : RecState) (tk : List Char) (ts : GoTime) : Triple :=
  { key := keyFor tk ts, tk := tk, path := pathFor s.baseDir tk ts,
    csvBuf := if pathFor s.baseDir tk ts ∈ fsPaths (rotFs s tk ts) then []
              else [headerRow],
    bioBuf := [], wErr := false, bErr := false, cErr := false }

/-- The not-already-open branch of `getWriter`: evict every open triple
matching the prefix-based cleanup condition, create the partition file
(append-open: an `O_CREATE` open adds an empty file when absent), and
register the new triple. -/
def rotateCreate (s : RecState) (tk : List Char) (ts : GoTime) : RecState :=
  { s with
    triples :=
      s.triples.filter (fun t => ! decide (evictCond tk (keyFor tk ts) t.key)) ++
        [freshTriple s tk ts],
    fs :=
      if pathFor s.baseDir tk ts ∈ fsPaths (rotFs s tk ts) then rotFs s tk ts
      else rotFs s tk ts ++ [(pathFor s.baseDir tk ts, [])] }

/-- `getWriter` (csv_spread_recorder.go lines 184-272): return the existing
triple for the key if open; otherwise rotate and create via `rotateCreate`. -/
def getWriter (s : RecState) (tk : List Char) (ts : GoTime) : RecState × List Char :=
  if keyFor tk ts ∈ keysOf s then (s, keyFor tk ts)
  else (rotateCreate s tk ts, keyFor tk ts)

/-- Append a row to the open triple with the given key (`writer.Write`). -/
def appendRow (s : RecState) (key : List Char) (r : Row) : RecState :=
  { s with
    triples := s.triples.map (fun t =>
      if t.key = key then { t with csvBuf := t.csvBuf ++ [r] } else t) }

/-- `Record`: resolve the partition (rotating if needed) and append the
serialized row. -/
def record (s : RecState) (pd : PriceData) : RecState :=
  let res := getWriter s pd.Ticker pd.Timestamp
  appendRow res.1 res.2 (rowOf pd)

/-- `RecordBatch`: `Record` semantics applied to each element in order under
one lock acquisition. -/
def recordBatch (s : RecState) (pds : List PriceData) : RecState :=
  pds.foldl record s

/-- A call to the writer's recording API. -/
inductive WCall
  | one (pd : PriceData)
  | batch (pds : List PriceData)

/-- Apply one API call. -/
def applyCall (s : RecState) : WCall → RecState
  | .one pd => record s pd
  | .batch pds => recordBatch s pds

/-- Run a sequence of `Record`/`RecordBatch` calls. -/
def runCalls (s : RecState) (cs : List WCall) : RecState :=
  cs.foldl applyCall s

/-- One step of `Flush` (csv_spread_recorder.go lines 126-139) over the open
triples in iteration order: flush the csv writer (abort returning an error
when it fails), then flush the bufio writer to the file (abort on failure),
then continue with the remaining triples.  Returns the updated file system,
the updated triples, and the first error (the failing triple's key). -/
def flushList : FS → List Triple → FS × List Triple × Option (List Char)
  | fs, [] => (fs, [], none)
  | fs, t :: rest =>
    if t.wErr then (fs, t :: rest, some t.key)
    else
      let t1 : Triple := { t with csvBuf := [], bioBuf := t.bioBuf ++ t.csvBuf }
      if t.bErr then (fs, t1 :: rest, some t.key)
      else
        let fs1 := fsAppend fs t.path t1.bioBuf
        let t2 : Triple := { t1 with bioBuf := [] }
        let res := flushList fs1 rest
        (res.1, t2 :: res.2.1, res.2.2)

/-- `Flush`: runs `flushList` over all open triples. -/
def flushAll (s : RecState) : RecState × Option (List Char) :=
  let res := flushList s.fs s.triples
  ({ s with fs := res.1, triples := res.2.1 }, res.2.2)

/-- First loop of `Close` (lines 151-156): flush every csv writer into its
bufio writer, returning on the first error. -/
def closeLoop1 : List Triple → List Triple × Option (List Char)
  | [] => ([], none)
  | t :: rest =>
    if t.wErr then (t :: rest, some t.key)
    else
      let t1 : Triple := { t with csvBuf := [], bioBuf := t.bioBuf ++ t.csvBuf }
      let res := closeLoop1 rest
      (t1 :: res.1, res.2)

/-- Second loop of `Close` (lines 159-163): flush every bufio writer to its
file, returning on the first error. -/
def closeLoop2 : FS → List Triple → FS × List Triple × Option (List Char)
  | fs, [] => (fs, [], none)
  | fs, t :: rest =>
    if t.bErr then (fs, t :: rest, some t.key)
    else
      let fs1 := fsAppend fs t.path t.bioBuf
      let t1 : Triple := { t with bioBuf := [] }
      let res := closeLoop2 fs1 rest
      (res.1, t1 :: res.2.1, res.2.2)

/-- Third loop of `Close` (lines 166-170): close every file, returning on
the first error. -/
def closeLoop3 : List Triple → Option (List Char)
  | [] => none
  | t :: rest => if t.cErr then some t.key else closeLoop3 rest

/-- `Close` (lines 146-178): the three loops in order; the maps are cleared
only when every loop completed without error. -/
def closeAll (s : RecState) : RecState × Option (List Char) :=
  let r1 := closeLoop1 s.triples
  match r1.2 with
  | some e => ({ s with triples := r1.1 }, some e)
  | none =>
    let r2 := closeLoop2 s.fs r1.1
    match r2.2.2 with
    | some e => ({ s with fs := r2.1, triples := r2.2.1 }, some e)
    | none =>
      match closeLoop3 r2.2.1 with
      | some e => ({ s with fs := r2.1, triples := r2.2.1 }, some e)
      | none => ({ s with fs := r2.1, triples := [] }, none)

/-- The observable steps of `CollectorService.Stop`. -/
inductive StopStep
  | tickerStop
  | stopFlushClose
  | cancelSignal
  | finalFlush
  | wsClose
  | recClose
deriving DecidableEq

/-- Orchestrator state relevant to `Stop` (collector_service.go): the spread
recorder (our writer model), whether the periodic-flush ticker was started,
whether the websocket close would fail, plus an action trace and a log. -/
structure ServiceState where
  recorder : RecState
  flushTickerSet : Bool
  stopFlushClosed : Bool
  cancelled : Bool
  wsOpen : Bool
  wsCloseErr : Bool
  trace : List StopStep
  log : List (List Char)

/-- `CollectorService.Stop` (lines 198-225): stop the ticker and close the
stopFlush channel (when the ticker was started), cancel the context, do one
final recorder flush (error only logged), close the websocket (error only
logged), close the recorder (error only logged), and return nil. -/
def serviceStop (s : ServiceState) : ServiceState × Option (List Char) :=
  let s1 := if s.flushTickerSet then
      { s with flushTickerSet := false, stopFlushClosed := true,
               trace := s.trace ++ [StopStep.tickerStop, StopStep.stopFlushClose] }
    else s
  let s2 := { s1 with cancelled := true, trace := s1.trace ++ [StopStep.cancelSignal] }
  let fr := flushAll s2.recorder
  let s3 := { s2 with recorder := fr.1,
                      trace := s2.trace ++ [StopStep.finalFlush],
                      log := s2.log ++ (match fr.2 with
                        | some e => ["final flush error: ".data ++ e]
                        | none => []) }
  let s4 := { s3 with wsOpen := false, trace := s3.trace ++ [StopStep.wsClose],
                      log := s3.log ++ (if s.wsCloseErr then ["websocket close error".data] else []) }
  let cr := closeAll s4.recorder
  let s5 := { s4 with recorder := cr.1, trace := s4.trace ++ [StopStep.recClose],
                      log := s4.log ++ (match cr.2 with
                        | some e => ["recorder close error: ".data ++ e]
                        | none => []) }
  (s5, none)

/-! ### Sample data (concrete inputs used by witnesses and counterexamples,
mirroring csv_spread_recorder_test.go) -/

/-- EURUSD observation at 2025-11-18 12:00:00 UTC. -/
def sampleObs12 : PriceData :=
  { Timestamp := ⟨2025, 11, 18, 12, 0, 0, 0⟩, Uic := 21, Ticker := "EURUSD".data,
    AssetType := "FxSpot".data, Bid := 1, Ask := 1, Spread := 0, Decimals := 0 }

/-- Same series one hour later. -/
def sampleObs13 : PriceData :=
  { sampleObs12 with Timestamp := ⟨2025, 11, 18, 13, 0, 0, 0⟩ }

/-- Same series at 14:59:59.999. -/
def sampleObs1459 : PriceData :=
  { sampleObs12 with Timestamp := ⟨2025, 11, 18, 14, 59, 59, 999000000⟩ }

/-- Same series at 15:00:00.000. -/
def sampleObs15 : PriceData :=
  { sampleObs12 with Timestamp := ⟨2025, 11, 18, 15, 0, 0, 0⟩ }

/-- A distinct series whose identifier is a strict prefix of EURUSD. -/
def sampleObsEUR : PriceData :=
  { sampleObs12 with Ticker := "EUR".data }

/-- Observation with declared precision 0 and bid/ask exactly 1.5. -/
def sampleObsP0 : PriceData :=
  { sampleObs12 with Bid := 3/2, Ask := 3/2, Spread := 0 }

/-- An open EURUSD hour-12 triple with empty buffers. -/
def plainTriple : Triple :=
  { key := "EURUSD_20251118_12".data, tk := "EURUSD".data,
    path := "data/20251118/EURUSD_12.csv".data,
    csvBuf := [], bioBuf := [],
    wErr := false, bErr := false, cErr := false }

/-- A writer state holding exactly the open `plainTriple`. -/
def plainState : RecState :=
  { baseDir := "data".data, triples := [plainTriple],
    fs := [("data/20251118/EURUSD_12.csv".data, [headerRow])] }

/-- Keys of the open triples created for series identifier `T`. -/
def keysForTk (s : RecState) (T : List Char) : List (List Char) :=
  (s.triples.filter (fun t => decide (t.tk = T))).map (fun t => t.key)

/-- Writer state with two open triples; the first would fail its csv-writer
flush, the second is healthy and has one buffered row. -/
def failFlushState : RecState :=
  { baseDir := "data".data,
    triples :=
      [{ key := "AAA_20251118_12".data, tk := "AAA".data,
         path := "data/20251118/AAA_12.csv".data,
         csvBuf := [[['1']]], bioBuf := [], wErr := true, bErr := false, cErr := false },
       { key := "BBB_20251118_12".data, tk := "BBB".data,
         path := "data/20251118/BBB_12.csv".data,
         csvBuf := [[['2']]], bioBuf := [], wErr := false, bErr := false, cErr := false }],
    fs := [] }

/-- Writer state with one open triple whose file close would fail. -/
def failCloseState : RecState :=
  { baseDir := "data".data,
    triples :=
      [{ key := "AAA_20251118_12".data, tk := "AAA".data,
         path := "data/20251118/AAA_12.csv".data,
         csvBuf := [], bioBuf := [], wErr := false, bErr := false, cErr := true }],
    fs := [] }

/-- A running service whose final flush and websocket close would both
fail. -/
def sampleService : ServiceState :=
  { recorder := failFlushState, flushTickerSet := true, stopFlushClosed := false,
    cancelled := false, wsOpen := true, wsCloseErr := true, trace := [], log := [] }

/-! ### Digit and padding lemmas -/

lemma dTable_inj : ∀ a < 10, ∀ b < 10, dTable a = dTable b → a = b := by decide

lemma dTable_lt_iff : ∀ a < 10, ∀ b < 10, (dTable a < dTable b ↔ a < b) := by decide

lemma dTable_ne_dot : ∀ a < 10, dTable a ≠ '.' := by decide

lemma digitChar_eq_iff {a b : Nat} : digitChar a = digitChar b ↔ a % 10 = b % 10 := by
  constructor
  · intro h
    exact dTable_inj (a % 10) (by omega) (b % 10) (by omega) h
  · intro h
    simp only [digitChar, h]

lemma digitChar_lt_iff {a b : Nat} : digitChar a < digitChar b ↔ a % 10 < b % 10 :=
  dTable_lt_iff (a % 10) (by omega) (b % 10) (by omega)

lemma digitChar_ne_dot (a : Nat) : digitChar a ≠ '.' :=
  dTable_ne_dot (a % 10) (by omega)

lemma pad2_inj {a b : Nat} (ha : a < 100) (hb : b < 100) (h : pad2 a = pad2 b) :
    a = b := by
  simp only [pad2, List.cons.injEq, and_true] at h
  rw [digitChar_eq_iff, digitChar_eq_iff] at h
  omega

lemma pad4_inj {a b : Nat} (ha : a < 10000) (hb : b < 10000) (h : pad4 a = pad4 b) :
    a = b := by
  simp only [pad4, List.cons.injEq, and_true] at h
  rw [digitChar_eq_iff, digitChar_eq_iff, digitChar_eq_iff, digitChar_eq_iff] at h
  omega

lemma pad9_inj {a b : Nat} (ha : a < 1000000000) (hb : b < 1000000000)
    (h : pad9 a = pad9 b) : a = b := by
  simp only [pad9, List.cons.injEq, and_true] at h
  rw [digitChar_eq_iff, digitChar_eq_iff, digitChar_eq_iff, digitChar_eq_iff,
    digitChar_eq_iff, digitChar_eq_iff, digitChar_eq_iff, digitChar_eq_iff,
    digitChar_eq_iff] at h
  omega

/-! ### Lexicographic order on character lists -/

lemma not_lt_nil {α : Type} [LinearOrder α] (l : List α) : ¬ l < ([] : List α) :=
  List.Lex.not_nil_right _ l

@[simp] lemma lt_nil_iff {α : Type} [LinearOrder α] {l : List α} :
    l < ([] : List α) ↔ False :=
  iff_false_intro (not_lt_nil l)

lemma nil_lt_cons {α : Type} [LinearOrder α] (b : α) (bs : List α) :
    ([] : List α) < b :: bs :=
  List.Lex.nil

lemma cons_lt_cons_iff {α : Type} [LinearOrder α] {a b : α} {as bs : List α} :
    a :: as < b :: bs ↔ a < b ∨ (a = b ∧ as < bs) := by
  constructor
  · intro h
    cases h with
    | cons h => exact Or.inr ⟨rfl, h⟩
    | rel h => exact Or.inl h
  · rintro (h | ⟨rfl, h⟩)
    · exact List.Lex.rel h
    · exact List.Lex.cons h

lemma append_lt_iff {α : Type} [LinearOrder α] {a1 a2 : List α} (b1 b2 : List α)
    (h : a1.length = a2.length) :
    a1 ++ b1 < a2 ++ b2 ↔ a1 < a2 ∨ (a1 = a2 ∧ b1 < b2) := by
  induction a1 generalizing a2 with
  | nil =>
    cases a2 with
    | nil => simp
    | cons y ys => simp at h
  | cons x xs ih =>
    cases a2 with
    | nil => simp at h
    | cons y ys =>
      simp only [List.length_cons, Nat.add_right_cancel_iff] at h
      simp only [List.cons_append, cons_lt_cons_iff, List.cons.injEq, ih h]
      tauto

lemma pad2_eq_iff {a b : Nat} (ha : a < 100) (hb : b < 100) :
    pad2 a = pad2 b ↔ a = b :=
  ⟨pad2_inj ha hb, fun h => by rw [h]⟩

lemma pad4_eq_iff {a b : Nat} (ha : a < 10000) (hb : b < 10000) :
    pad4 a = pad4 b ↔ a = b :=
  ⟨pad4_inj ha hb, fun h => by rw [h]⟩

lemma pad2_lt_iff {a b : Nat} (ha : a < 100) (hb : b < 100) :
    pad2 a < pad2 b ↔ a < b := by
  simp only [pad2, cons_lt_cons_iff, lt_nil_iff, and_false, or_false,
    digitChar_lt_iff, digitChar_eq_iff]
  omega

lemma pad4_lt_iff {a b : Nat} (ha : a < 10000) (hb : b < 10000) :
    pad4 a < pad4 b ↔ a < b := by
  have h1 : a / 10 / 10 = a / 100 := by rw [Nat.div_div_eq_div_mul]
  have h2 : a / 100 / 10 = a / 1000 := by rw [Nat.div_div_eq_div_mul]
  have h3 : b / 10 / 10 = b / 100 := by rw [Nat.div_div_eq_div_mul]
  have h4 : b / 100 / 10 = b / 1000 := by rw [Nat.div_div_eq_div_mul]
  have m1 : a / 1000 % 10 = a / 1000 := Nat.mod_eq_of_lt (by omega)
  have m2 : b / 1000 % 10 = b / 1000 := Nat.mod_eq_of_lt (by omega)
  simp only [pad4, cons_lt_cons_iff, lt_nil_iff, and_false, or_false,
    digitChar_lt_iff, digitChar_eq_iff]
  omega

lemma pad9_decomp (n : Nat) :
    pad9 n = pad4 (n / 100000) ++ pad4 (n / 10 % 10000) ++ [digitChar n] := by
  have e1 : n / 100000 / 1000 = n / 100000000 := by rw [Nat.div_div_eq_div_mul]
  have e2 : n / 100000 / 100 = n / 10000000 := by rw [Nat.div_div_eq_div_mul]
  have e3 : n / 100000 / 10 = n / 1000000 := by rw [Nat.div_div_eq_div_mul]
  have g1 : n / 10 % 10000 / 1000 = n / 10000 % 10 := by
    rw [show (10000 : Nat) = 1000 * 10 from rfl, Nat.mod_mul_right_div_self,
      Nat.div_div_eq_div_mul]
  have g2 : n / 10 % 10000 / 100 = n / 1000 % 100 := by
    rw [show (10000 : Nat) = 100 * 100 from rfl, Nat.mod_mul_right_div_self,
      Nat.div_div_eq_div_mul]
  have g3 : n / 10 % 10000 / 10 = n / 100 % 1000 := by
    rw [show (10000 : Nat) = 10 * 1000 from rfl, Nat.mod_mul_right_div_self,
      Nat.div_div_eq_div_mul]
  have m2 : ∀ x : Nat, x % 100 % 10 = x % 10 := fun x =>
    Nat.mod_mod_of_dvd x (by norm_num)
  have m3 : ∀ x : Nat, x % 1000 % 10 = x % 10 := fun x =>
    Nat.mod_mod_of_dvd x (by norm_num)
  have m4 : ∀ x : Nat, x % 10000 % 10 = x % 10 := fun x =>
    Nat.mod_mod_of_dvd x (by norm_num)
  have m1 : ∀ x : Nat, x % 10 % 10 = x % 10 := fun x =>
    Nat.mod_mod_of_dvd x (by norm_num)
  simp only [pad9, pad4, digitChar, e1, e2, e3, g1, g2, g3, m1, m2, m3, m4,
    List.cons_append, List.nil_append]

lemma pad9_lt_iff {a b : Nat} (ha : a < 1000000000) (hb : b < 1000000000) :
    pad9 a < pad9 b ↔ a < b := by
  have p1 : a / 10 / 10000 = a / 100000 := by rw [Nat.div_div_eq_div_mul]
  have p2 : b / 10 / 10000 = b / 100000 := by rw [Nat.div_div_eq_div_mul]
  rw [pad9_decomp a, pad9_decomp b, List.append_assoc, List.append_assoc]
  rw [@append_lt_iff Char _ (pad4 (a / 100000)) (pad4 (b / 100000))
    (pad4 (a / 10 % 10000) ++ [digitChar a]) (pad4 (b / 10 % 10000) ++ [digitChar b]) rfl]
  rw [@append_lt_iff Char _ (pad4 (a / 10 % 10000)) (pad4 (b / 10 % 10000))
    [digitChar a] [digitChar b] rfl]
  rw [@pad4_lt_iff (a / 100000) (b / 100000) (by omega) (by omega),
    @pad4_eq_iff (a / 100000) (b / 100000) (by omega) (by omega),
    @pad4_lt_iff (a / 10 % 10000) (b / 10 % 10000) (by omega) (by omega),
    @pad4_eq_iff (a / 10 % 10000) (b / 10 % 10000) (by omega) (by omega),
    cons_lt_cons_iff, digitChar_lt_iff, digitChar_eq_iff]
  simp only [lt_nil_iff, and_false, or_false]
  omega

/-! ### Trailing-zero stripping -/

lemma stripZeros_append (l : List Char) :
    ∃ k, l = stripZeros l ++ List.replicate k '0' := by
  refine ⟨(l.reverse.takeWhile (fun c => decide (c = '0'))).length, ?_⟩
  have h1 : (l.reverse.takeWhile (fun c => decide (c = '0'))).reverse
      = List.replicate (l.reverse.takeWhile (fun c => decide (c = '0'))).length '0' := by
    rw [List.eq_replicate_iff]
    refine ⟨by simp, ?_⟩
    intro b hb
    rw [List.mem_reverse] at hb
    simpa using List.mem_takeWhile_imp hb
  conv_lhs => rw [← l.reverse_reverse,
    ← List.takeWhile_append_dropWhile (fun c => decide (c = '0')) l.reverse,
    List.reverse_append, h1]
  rw [stripZeros]

lemma stripZeros_length_le (l : List Char) : (stripZeros l).length ≤ l.length := by
  obtain ⟨k, hk⟩ := stripZeros_append l
  conv_rhs => rw [hk]
  simp

lemma pad9_eq_of_strip_eq {a b : Nat}
    (h : stripZeros (pad9 a) = stripZeros (pad9 b)) : pad9 a = pad9 b := by
  obtain ⟨k1, hk1⟩ := stripZeros_append (pad9 a)
  obtain ⟨k2, hk2⟩ := stripZeros_append (pad9 b)
  have hl1 : (pad9 a).length = 9 := rfl
  have hl2 : (pad9 b).length = 9 := rfl
  have hk : k1 = k2 := by
    rw [hk1, List.length_append, List.length_replicate] at hl1
    rw [hk2, List.length_append, List.length_replicate] at hl2
    rw [h] at hl1
    omega
  rw [hk1, hk2, h, hk]

/-! ### RFC3339Nano fraction lemmas -/

lemma fracNano_length_eq_zero {n : Nat} (h : (fracNano n).length = 0) : n = 0 := by
  by_contra h0
  simp [fracNano, h0] at h

lemma fracNano_inj {a b : Nat} (ha : a < 1000000000) (hb : b < 1000000000)
    (h : fracNano a = fracNano b) : a = b := by
  by_cases h0a : a = 0 <;> by_cases h0b : b = 0
  · omega
  · simp [fracNano, h0a, h0b] at h
  · simp [fracNano, h0a, h0b] at h
  · simp only [fracNano, if_neg h0a, if_neg h0b, List.cons.injEq, true_and] at h
    exact pad9_inj ha hb (pad9_eq_of_strip_eq h)

lemma fracNano_lt_iff {a b : Nat} (ha : a < 1000000000) (hb : b < 1000000000)
    (hlen : (fracNano a).length = (fracNano b).length) :
    fracNano a < fracNano b ↔ a < b := by
  by_cases h0a : a = 0
  · have hb0 : b = 0 := fracNano_length_eq_zero (by rw [← hlen]; simp [fracNano, h0a])
    subst hb0
    simp [fracNano, h0a]
  · by_cases h0b : b = 0
    · have : a = 0 := fracNano_length_eq_zero (by rw [hlen]; simp [fracNano, h0b])
      omega
    · rw [fracNano, if_neg h0a, fracNano, if_neg h0b] at hlen ⊢
      simp only [List.length_cons, Nat.add_right_cancel_iff] at hlen
      rw [cons_lt_cons_iff]
      simp only [lt_irrefl, false_or, true_and]
      obtain ⟨k1, hk1⟩ := stripZeros_append (pad9 a)
      obtain ⟨k2, hk2⟩ := stripZeros_append (pad9 b)
      have hl1 : (pad9 a).length = 9 := rfl
      have hl2 : (pad9 b).length = 9 := rfl
      rw [hk1, List.length_append, List.length_replicate] at hl1
      rw [hk2, List.length_append, List.length_replicate] at hl2
      have hkk : k1 = k2 := by omega
      constructor
      · intro hlt
        have h2 : stripZeros (pad9 a) ++ List.replicate k1 '0'
            < stripZeros (pad9 b) ++ List.replicate k1 '0' := by
          rw [append_lt_iff _ _ (by omega)]
          exact Or.inl hlt
        rw [← hk1, hkk, ← hk2] at h2
        exact (pad9_lt_iff ha hb).mp h2
      · intro hlt
        have h2 : pad9 a < pad9 b := (pad9_lt_iff ha hb).mpr hlt
        rw [hk1, hk2, ← hkk] at h2
        rw [append_lt_iff _ _ (by omega)] at h2
        rcases h2 with h2 | ⟨h2, h3⟩
        · exact h2
        · exact (lt_irrefl _ h3).elim

/-! ### Fixed-width date-time block lemmas -/

lemma block4_lt_iff (c : Char) {a b : Nat} (ha : a < 10000) (hb : b < 10000)
    (r1 r2 : List Char) :
    pad4 a ++ c :: r1 < pad4 b ++ c :: r2 ↔ a < b ∨ (a = b ∧ r1 < r2) := by
  rw [@append_lt_iff Char _ (pad4 a) (pad4 b) (c :: r1) (c :: r2) rfl,
    cons_lt_cons_iff, pad4_lt_iff ha hb, pad4_eq_iff ha hb]
  simp

lemma block2_lt_iff (c : Char) {a b : Nat} (ha : a < 100) (hb : b < 100)
    (r1 r2 : List Char) :
    pad2 a ++ c :: r1 < pad2 b ++ c :: r2 ↔ a < b ∨ (a = b ∧ r1 < r2) := by
  rw [@append_lt_iff Char _ (pad2 a) (pad2 b) (c :: r1) (c :: r2) rfl,
    cons_lt_cons_iff, pad2_lt_iff ha hb, pad2_eq_iff ha hb]
  simp

lemma fixed19_length (t : GoTime) : (fixed19 t).length = 19 := by
  simp [fixed19, pad4, pad2]

lemma fixed19_lt_iff {t1 t2 : GoTime} (h1 : t1.Valid) (h2 : t2.Valid) :
    fixed19 t1 < fixed19 t2 ↔
      (t1.year < t2.year ∨ (t1.year = t2.year ∧
        (t1.month < t2.month ∨ (t1.month = t2.month ∧
          (t1.day < t2.day ∨ (t1.day = t2.day ∧
            (t1.hour < t2.hour ∨ (t1.hour = t2.hour ∧
              (t1.minute < t2.minute ∨ (t1.minute = t2.minute ∧
                t1.sec < t2.sec)))))))))) := by
  obtain ⟨hy1, hmo1, hmo1b, hd1, hd1b, hh1, hmi1, hs1, hn1⟩ := h1
  obtain ⟨hy2, hmo2, hmo2b, hd2, hd2b, hh2, hmi2, hs2, hn2⟩ := h2
  unfold fixed19
  simp only [List.append_assoc, List.cons_append]
  rw [block4_lt_iff '-' hy1 hy2, block2_lt_iff '-' (by omega) (by omega),
    block2_lt_iff 'T' (by omega) (by omega), block2_lt_iff ':' (by omega) (by omega),
    block2_lt_iff ':' (by omega) (by omega), pad2_lt_iff (by omega) (by omega)]

lemma fixed19_eq_iff {t1 t2 : GoTime} (h1 : t1.Valid) (h2 : t2.Valid) :
    fixed19 t1 = fixed19 t2 ↔
      (t1.year = t2.year ∧ t1.month = t2.month ∧ t1.day = t2.day ∧
        t1.hour = t2.hour ∧ t1.minute = t2.minute ∧ t1.sec = t2.sec) := by
  constructor
  · intro h
    have n1 : ¬ fixed19 t1 < fixed19 t2 := by rw [h]; exact lt_irrefl _
    have n2 : ¬ fixed19 t2 < fixed19 t1 := by rw [h]; exact lt_irrefl _
    rw [fixed19_lt_iff h1 h2] at n1
    rw [fixed19_lt_iff h2 h1] at n2
    omega
  · rintro ⟨e1, e2, e3, e4, e5, e6⟩
    unfold fixed19
    rw [e1, e2, e3, e4, e5, e6]

lemma formatRFC_inj {t1 t2 : GoTime} (h1 : t1.Valid) (h2 : t2.Valid)
    (h : formatRFC3339Nano t1 = formatRFC3339Nano t2) : t1 = t2 := by
  unfold formatRFC3339Nano at h
  simp only [List.append_assoc] at h
  obtain ⟨hf, hr⟩ := List.append_inj h (by rw [fixed19_length, fixed19_length])
  have hfrac : fracNano t1.nsec = fracNano t2.nsec := List.append_cancel_right hr
  have hn : t1.nsec = t2.nsec :=
    fracNano_inj h1.2.2.2.2.2.2.2.2 h2.2.2.2.2.2.2.2.2 hfrac
  obtain ⟨e1, e2, e3, e4, e5, e6⟩ := (fixed19_eq_iff h1 h2).mp hf
  cases t1
  cases t2
  simp_all

lemma formatRFC_lt_iff {t1 t2 : GoTime} (h1 : t1.Valid) (h2 : t2.Valid)
    (hlen : (fracNano t1.nsec).length = (fracNano t2.nsec).length) :
    formatRFC3339Nano t1 < formatRFC3339Nano t2 ↔ t1.chronLT t2 := by
  unfold formatRFC3339Nano
  simp only [List.append_assoc]
  rw [@append_lt_iff Char _ (fixed19 t1) (fixed19 t2)
    (fracNano t1.nsec ++ ['Z']) (fracNano t2.nsec ++ ['Z'])
    (by rw [fixed19_length, fixed19_length])]
  rw [@append_lt_iff Char _ (fracNano t1.nsec) (fracNano t2.nsec) ['Z'] ['Z'] hlen]
  rw [fixed19_lt_iff h1 h2, fixed19_eq_iff h1 h2,
    fracNano_lt_iff h1.2.2.2.2.2.2.2.2 h2.2.2.2.2.2.2.2.2 hlen]
  unfold GoTime.chronLT
  simp only [lt_irrefl, lt_self_iff_false, and_false, or_false]
  tauto

/-! ### Writer state-machine lemmas -/

lemma triples_appendRow (s : RecState) (key : List Char) (r : Row) :
    (appendRow s key r).triples =
      s.triples.map (fun t =>
        if t.key = key then { t with csvBuf := t.csvBuf ++ [r] } else t) := rfl

lemma update_key (t : Triple) (key : List Char) (r : Row) :
    (if t.key = key then { t with csvBuf := t.csvBuf ++ [r] } else t).key = t.key := by
  split <;> rfl

lemma update_tk (t : Triple) (key : List Char) (r : Row) :
    (if t.key = key then { t with csvBuf := t.csvBuf ++ [r] } else t).tk = t.tk := by
  split <;> rfl

lemma keysOf_appendRow (s : RecState) (key : List Char) (r : Row) :
    keysOf (appendRow s key r) = keysOf s := by
  unfold keysOf
  rw [triples_appendRow, List.map_map]
  exact List.map_congr_left (fun t _ => update_key t key r)

lemma getWriter_found {s : RecState} {tk : List Char} {ts : GoTime}
    (h : keyFor tk ts ∈ keysOf s) : getWriter s tk ts = (s, keyFor tk ts) := by
  unfold getWriter
  rw [if_pos h]

lemma getWriter_create {s : RecState} {tk : List Char} {ts : GoTime}
    (h : keyFor tk ts ∉ keysOf s) :
    getWriter s tk ts = (rotateCreate s tk ts, keyFor tk ts) := by
  unfold getWriter
  rw [if_neg h]

lemma keysOf_rotateCreate (s : RecState) (tk : List Char) (ts : GoTime) :
    keysOf (rotateCreate s tk ts) =
      (keysOf s).filter (fun k => ! decide (evictCond tk (keyFor tk ts) k)) ++
        [keyFor tk ts] := by
  unfold keysOf rotateCreate
  simp only [List.map_append, List.map_cons, List.map_nil]
  congr 1
  rw [List.filter_map]
  rfl

lemma keyShape_freshTriple (s : RecState) (tk : List Char) (ts : GoTime) :
    KeyShape (freshTriple s tk ts) := by
  refine ⟨dateStr ts ++ '_' :: hourStr ts, ?_⟩
  show keyFor tk ts = tk ++ '_' :: (dateStr ts ++ '_' :: hourStr ts)
  unfold keyFor mkKey
  simp [List.append_assoc]

lemma evictCond_self {tk rest newKey : List Char}
    (hne : tk ++ '_' :: rest ≠ newKey) :
    evictCond tk newKey (tk ++ '_' :: rest) := by
  refine ⟨by simp, ?_, hne⟩
  exact List.take_left tk ('_' :: rest)

lemma wf_appendRow {s : RecState} (key : List Char) (r : Row) (h : WFInv s) :
    WFInv (appendRow s key r) := by
  obtain ⟨h1, h2⟩ := h
  constructor
  · intro t ht
    rw [triples_appendRow, List.mem_map] at ht
    obtain ⟨u, hu, rfl⟩ := ht
    obtain ⟨rest, hrest⟩ := h1 u hu
    exact ⟨rest, by rw [update_key, update_tk, hrest]⟩
  · rw [triples_appendRow, List.pairwise_map]
    exact h2.imp (fun hab => by rwa [update_tk, update_tk])

lemma wf_rotateCreate {s : RecState} {tk : List Char} {ts : GoTime} (h : WFInv s)
    (hnew : keyFor tk ts ∉ keysOf s) : WFInv (rotateCreate s tk ts) := by
  obtain ⟨h1, h2⟩ := h
  have htr : (rotateCreate s tk ts).triples =
      s.triples.filter (fun t => ! decide (evictCond tk (keyFor tk ts) t.key)) ++
        [freshTriple s tk ts] := rfl
  constructor
  · intro t ht
    rw [htr, List.mem_append] at ht
    rcases ht with ht | ht
    · exact h1 t (List.mem_of_mem_filter ht)
    · rw [List.mem_singleton] at ht
      subst ht
      exact keyShape_freshTriple s tk ts
  · rw [htr, List.pairwise_append]
    refine ⟨h2.filter _, List.pairwise_singleton _ _, ?_⟩
    intro a ha b hb
    rw [List.mem_singleton] at hb
    subst hb
    rw [List.mem_filter] at ha
    obtain ⟨hamem, hafilt⟩ := ha
    intro htk
    have htk2 : a.tk = tk := htk
    obtain ⟨rest, hrest⟩ := h1 a hamem
    have hne : a.key ≠ keyFor tk ts := by
      intro he
      exact hnew (he ▸ List.mem_map.mpr ⟨a, hamem, rfl⟩)
    have hne2 : tk ++ '_' :: rest ≠ keyFor tk ts := fun he =>
      hne (by rw [hrest, htk2, he])
    have hev : evictCond tk (keyFor tk ts) a.key := by
      rw [hrest, htk2]
      exact evictCond_self hne2
    simp at hafilt
    exact hafilt hev

lemma wf_record {s : RecState} (pd : PriceData) (h : WFInv s) :
    WFInv (record s pd) := by
  unfold record
  by_cases hk : keyFor pd.Ticker pd.Timestamp ∈ keysOf s
  · rw [getWriter_found hk]
    exact wf_appendRow _ _ h
  · rw [getWriter_create hk]
    exact wf_appendRow _ _ (wf_rotateCreate h hk)

lemma wf_recordBatch {s : RecState} (pds : List PriceData) (h : WFInv s) :
    WFInv (recordBatch s pds) := by
  induction pds generalizing s with
  | nil => exact h
  | cons pd rest ih => exact ih (wf_record pd h)

lemma wf_runCalls {s : RecState} (cs : List WCall) (h : WFInv s) :
    WFInv (runCalls s cs) := by
  induction cs generalizing s with
  | nil => exact h
  | cons c rest ih =>
    cases c with
    | one pd => exact ih (wf_record pd h)
    | batch pds => exact ih (wf_recordBatch pds h)

lemma wf_initState (b : List Char) (f : FS) : WFInv (initState b f) :=
  ⟨fun t ht => absurd ht (List.not_mem_nil t), List.Pairwise.nil⟩

lemma countP_tk_le_one {l : List Triple}
    (h : List.Pairwise (fun a b => a.tk ≠ b.tk) l) (T : List Char) :
    l.countP (fun t => decide (t.tk = T)) ≤ 1 := by
  induction l with
  | nil => simp
  | cons x xs ih =>
    rw [List.pairwise_cons] at h
    obtain ⟨hx, hxs⟩ := h
    rw [List.countP_cons]
    by_cases hxt : x.tk = T
    · have hz : xs.countP (fun t => decide (t.tk = T)) = 0 := by
        rw [List.countP_eq_zero]
        intro a ha
        simp only [decide_eq_true_eq]
        intro he
        exact hx a ha (by rw [hxt, he])
      simp [hz, hxt]
    · have hrec := ih hxs
      simp [hxt]
      omega

lemma not_mem_keys_rotateCreate {s : RecState} {tk : List Char} {ts : GoTime}
    {k : List Char} (hev : evictCond tk (keyFor tk ts) k) :
    k ∉ keysOf (rotateCreate s tk ts) := by
  rw [keysOf_rotateCreate]
  intro hmem
  rcases List.mem_append.mp hmem with h | h
  · rw [List.mem_filter] at h
    simp at h
    exact h.2 hev
  · rw [List.mem_singleton] at h
    exact hev.2.2 h

lemma keyFor_mem_record (s : RecState) (pd : PriceData) :
    keyFor pd.Ticker pd.Timestamp ∈ keysOf (record s pd) := by
  unfold record
  by_cases hk : keyFor pd.Ticker pd.Timestamp ∈ keysOf s
  · rw [getWriter_found hk, keysOf_appendRow]
    exact hk
  · rw [getWriter_create hk, keysOf_appendRow, keysOf_rotateCreate]
    simp

lemma not_mem_keys_record {s : RecState} {pd : PriceData} {k : List Char}
    (hnew : keyFor pd.Ticker pd.Timestamp ∉ keysOf s)
    (hev : evictCond pd.Ticker (keyFor pd.Ticker pd.Timestamp) k) :
    k ∉ keysOf (record s pd) := by
  unfold record
  rw [getWriter_create hnew, keysOf_appendRow]
  exact not_mem_keys_rotateCreate hev

lemma dateStr_length (t : GoTime) : (dateStr t).length = 8 := by
  simp [dateStr, pad4, pad2]

lemma keyFor_shape (tk : List Char) (ts : GoTime) :
    keyFor tk ts = tk ++ '_' :: (dateStr ts ++ '_' :: hourStr ts) := by
  unfold keyFor mkKey
  simp [List.append_assoc]

lemma mem_keysOf_of_findTriple {s : RecState} {k : List Char} {t : Triple}
    (h : findTriple s k = some t) : k ∈ keysOf s := by
  have hmem := List.mem_of_find?_eq_some h
  have hp := List.find?_some h
  simp only [decide_eq_true_eq] at hp
  exact List.mem_map.mpr ⟨t, hmem, hp⟩

lemma findTriple_record_new (s : RecState) (pd : PriceData)
    (hnew : keyFor pd.Ticker pd.Timestamp ∉ keysOf s) :
    findTriple (record s pd) (keyFor pd.Ticker pd.Timestamp) =
      some { freshTriple s pd.Ticker pd.Timestamp with
             csvBuf := (freshTriple s pd.Ticker pd.Timestamp).csvBuf ++ [rowOf pd] } := by
  unfold record
  rw [getWriter_create hnew]
  show ((appendRow (rotateCreate s pd.Ticker pd.Timestamp) (keyFor pd.Ticker pd.Timestamp)
      (rowOf pd)).triples.find? _) = _
  rw [triples_appendRow]
  have htr : (rotateCreate s pd.Ticker pd.Timestamp).triples =
      s.triples.filter (fun t =>
        ! decide (evictCond pd.Ticker (keyFor pd.Ticker pd.Timestamp) t.key)) ++
        [freshTriple s pd.Ticker pd.Timestamp] := rfl
  rw [htr, List.map_append, List.find?_append]
  have hnone : (((s.triples.filter (fun t =>
      ! decide (evictCond pd.Ticker (keyFor pd.Ticker pd.Timestamp) t.key))).map
        (fun t => if t.key = keyFor pd.Ticker pd.Timestamp
          then { t with csvBuf := t.csvBuf ++ [rowOf pd] } else t)).find?
            (fun t => decide (t.key = keyFor pd.Ticker pd.Timestamp))) = none := by
    rw [List.find?_eq_none]
    intro x hx
    rw [List.mem_map] at hx
    obtain ⟨u, hu, rfl⟩ := hx
    have hukey : u.key ≠ keyFor pd.Ticker pd.Timestamp := by
      intro he
      exact hnew (he ▸ List.mem_map.mpr ⟨u, List.mem_of_mem_filter hu, rfl⟩)
    rw [update_key]
    simp [hukey]
  rw [hnone, Option.none_or]
  have hfk : (freshTriple s pd.Ticker pd.Timestamp).key =
      keyFor pd.Ticker pd.Timestamp := rfl
  simp [List.find?_cons, hfk]

lemma findTriple_record_open (s : RecState) (pd : PriceData) {t0 : Triple}
    (hfound : findTriple s (keyFor pd.Ticker pd.Timestamp) = some t0) :
    findTriple (record s pd) (keyFor pd.Ticker pd.Timestamp) =
      some { t0 with csvBuf := t0.csvBuf ++ [rowOf pd] } := by
  unfold record
  rw [getWriter_found (mem_keysOf_of_findTriple hfound)]
  show ((appendRow s (keyFor pd.Ticker pd.Timestamp) (rowOf pd)).triples.find? _) = _
  rw [triples_appendRow]
  have hcomp : ∀ t : Triple,
      (fun u => decide (u.key = keyFor pd.Ticker pd.Timestamp))
        ((fun u => if u.key = keyFor pd.Ticker pd.Timestamp
          then { u with csvBuf := u.csvBuf ++ [rowOf pd] } else u) t) =
      decide (t.key = keyFor pd.Ticker pd.Timestamp) := by
    intro t
    simp only [update_key]
  rw [List.find?_map]
  have : (s.triples.find? ((fun u => decide (u.key = keyFor pd.Ticker pd.Timestamp)) ∘
      (fun u => if u.key = keyFor pd.Ticker pd.Timestamp
        then { u with csvBuf := u.csvBuf ++ [rowOf pd] } else u))) = some t0 := by
    rw [show ((fun u : Triple => decide (u.key = keyFor pd.Ticker pd.Timestamp)) ∘
      (fun u : Triple => if u.key = keyFor pd.Ticker pd.Timestamp
        then { u with csvBuf := u.csvBuf ++ [rowOf pd] } else u)) =
      (fun u : Triple => decide (u.key = keyFor pd.Ticker pd.Timestamp)) from
        funext hcomp]
    exact hfound
  rw [this]
  have ht0 : t0.key = keyFor pd.Ticker pd.Timestamp := by
    have hp := List.find?_some hfound
    simpa using hp
  simp [Option.map, ht0]

/-! ### Flush and Close characterization lemmas -/

lemma flushList_ok (fs : FS) (l : List Triple)
    (h : ∀ t ∈ l, t.wErr = false ∧ t.bErr = false) :
    flushList fs l =
      (l.foldl (fun f t => fsAppend f t.path (t.bioBuf ++ t.csvBuf)) fs,
       l.map (fun t => { t with csvBuf := [], bioBuf := [] }), none) := by
  induction l generalizing fs with
  | nil => rfl
  | cons t rest ih =>
    obtain ⟨hw, hb⟩ := h t (List.mem_cons_self t rest)
    have hw' : ¬ (t.wErr = true) := by simp [hw]
    have hb' : ¬ (t.bErr = true) := by simp [hb]
    simp only [flushList, if_neg hw', if_neg hb',
      ih _ (fun u hu => h u (List.mem_cons_of_mem t hu)), List.map_cons,
      List.foldl_cons]

lemma flushList_abort (fs : FS) (pre : List Triple) (t : Triple) (post : List Triple)
    (hok : ∀ u ∈ pre, u.wErr = false ∧ u.bErr = false)
    (hbad : t.wErr = true ∨ t.bErr = true) :
    (flushList fs (pre ++ t :: post)).2.2 = some t.key ∧
      (flushList fs (pre ++ t :: post)).2.1 =
        pre.map (fun u => { u with csvBuf := [], bioBuf := [] }) ++
          (if t.wErr then t
           else { t with csvBuf := [], bioBuf := t.bioBuf ++ t.csvBuf }) :: post := by
  induction pre generalizing fs with
  | nil =>
    by_cases hw : t.wErr
    · simp [flushList, hw]
    · have hb : t.bErr = true := by
        rcases hbad with h | h
        · exact absurd h hw
        · exact h
      simp [flushList, hw, hb]
  | cons u pre' ih =>
    obtain ⟨hw, hb⟩ := hok u (List.mem_cons_self u pre')
    have hw' : ¬ (u.wErr = true) := by simp [hw]
    have hb' : ¬ (u.bErr = true) := by simp [hb]
    simp only [List.cons_append, flushList, if_neg hw', if_neg hb']
    have hrec := ih (fsAppend fs u.path (u.bioBuf ++ u.csvBuf))
      (fun v hv => hok v (List.mem_cons_of_mem u hv))
    refine ⟨hrec.1, ?_⟩
    rw [List.map_cons, List.cons_append]
    exact congrArg _ hrec.2

lemma closeLoop1_ok (l : List Triple) (h : ∀ t ∈ l, t.wErr = false) :
    closeLoop1 l =
      (l.map (fun t => { t with csvBuf := [], bioBuf := t.bioBuf ++ t.csvBuf }), none) := by
  induction l with
  | nil => rfl
  | cons t rest ih =>
    have hw := h t (List.mem_cons_self t rest)
    have hw' : ¬ (t.wErr = true) := by simp [hw]
    simp only [closeLoop1, if_neg hw',
      ih (fun u hu => h u (List.mem_cons_of_mem t hu)), List.map_cons]

lemma closeLoop2_ok (fs : FS) (l : List Triple) (h : ∀ t ∈ l, t.bErr = false) :
    closeLoop2 fs l =
      (l.foldl (fun f t => fsAppend f t.path t.bioBuf) fs,
       l.map (fun t => { t with bioBuf := [] }), none) := by
  induction l generalizing fs with
  | nil => rfl
  | cons t rest ih =>
    have hb := h t (List.mem_cons_self t rest)
    have hb' : ¬ (t.bErr = true) := by simp [hb]
    simp only [closeLoop2, if_neg hb',
      ih _ (fun u hu => h u (List.mem_cons_of_mem t hu)), List.map_cons,
      List.foldl_cons]

lemma closeLoop3_ok (l : List Triple) (h : ∀ t ∈ l, t.cErr = false) :
    closeLoop3 l = none := by
  induction l with
  | nil => rfl
  | cons t rest ih =>
    have hc := h t (List.mem_cons_self t rest)
    have hc' : ¬ (t.cErr = true) := by simp [hc]
    simp only [closeLoop3, if_neg hc']
    exact ih (fun u hu => h u (List.mem_cons_of_mem t hu))

lemma closeLoop1_length (l : List Triple) : (closeLoop1 l).1.length = l.length := by
  induction l with
  | nil => rfl
  | cons t rest ih =>
    by_cases hw : t.wErr <;> simp [closeLoop1, hw, ih]

lemma closeLoop2_length (fs : FS) (l : List Triple) :
    (closeLoop2 fs l).2.1.length = l.length := by
  induction l generalizing fs with
  | nil => rfl
  | cons t rest ih =>
    by_cases hb : t.bErr <;> simp [closeLoop2, hb, ih]

/-! ### Claim theorems -/

/-- C1: over any sequence of `Record`/`RecordBatch` calls from a fresh
writer, at most one resource triple per series identifier is open at any
time; and resolving a new (not currently open) hour partition for a series
closes and releases the previously open triple of that same series before
returning. -/
theorem C1_one_triple_per_series (b : List Char) (f0 : FS) (cs : List WCall)
    (T : List Char) (pd : PriceData) (k : List Char)
    (hk : k ∈ keysForTk (runCalls (initState b f0) cs) pd.Ticker)
    (hkne : k ≠ keyFor pd.Ticker pd.Timestamp)
    (hnew : keyFor pd.Ticker pd.Timestamp ∉ keysOf (runCalls (initState b f0) cs)) :
    countTk T (runCalls (initState b f0) cs) ≤ 1 ∧
      k ∉ keysOf (record (runCalls (initState b f0) cs) pd) := by
  have hwf := wf_runCalls cs (wf_initState b f0)
  constructor
  · exact countP_tk_le_one hwf.2 T
  · unfold keysForTk at hk
    rw [List.mem_map] at hk
    obtain ⟨t, htf, hkey⟩ := hk
    rw [List.mem_filter] at htf
    obtain ⟨ht, htk⟩ := htf
    simp only [decide_eq_true_eq] at htk
    obtain ⟨rest, hrest⟩ := hwf.1 t ht
    apply not_mem_keys_record hnew
    have hne2 : pd.Ticker ++ '_' :: rest ≠ keyFor pd.Ticker pd.Timestamp := by
      intro he
      exact hkne (by rw [← hkey, hrest, htk]; exact he)
    rw [← hkey, hrest, htk]
    exact evictCond_self hne2

/-- Witness for C1: one EURUSD record, then a record in the next hour
closes the hour-12 triple. -/
theorem C1_one_triple_per_series_witness :
    countTk "EURUSD".data (runCalls (initState "data".data []) [WCall.one sampleObs12]) ≤ 1 ∧
      "EURUSD_20251118_12".data ∉ keysOf (record (runCalls (initState "data".data [])
        [WCall.one sampleObs12]) sampleObs13) :=
  C1_one_triple_per_series "data".data [] [WCall.one sampleObs12] "EURUSD".data
    sampleObs13 "EURUSD_20251118_12".data (by decide) (by decide) (by decide)

/-- C2 (amended): when resolving a Partition Key that is not already open,
the cleanup scan evicts exactly those open triples whose key strictly
extends the new key's series identifier as a string prefix (and differs
from the new key) — which covers same-series triples with a different
partition, but also distinct series whose identifier begins with the new
series identifier; every other open triple stays open, and the new key is
registered. -/
theorem C2_cleanup_scan_prefix_matching (s : RecState) (tk : List Char) (ts : GoTime)
    (hnew : keyFor tk ts ∉ keysOf s) :
    keysOf (getWriter s tk ts).1 =
      (keysOf s).filter (fun k =>
        ! decide (tk.length < k.length ∧ k.take tk.length = tk ∧ k ≠ keyFor tk ts)) ++
        [keyFor tk ts] := by
  rw [getWriter_create hnew]
  exact keysOf_rotateCreate s tk ts

/-- Witness for C2's amended statement on a concrete state. -/
theorem C2_cleanup_scan_prefix_matching_witness :
    keysOf (getWriter (record (initState "data".data []) sampleObs12)
        "EUR".data sampleObs12.Timestamp).1 =
      (keysOf (record (initState "data".data []) sampleObs12)).filter (fun k =>
        ! decide ("EUR".data.length < k.length ∧ k.take "EUR".data.length = "EUR".data ∧
          k ≠ keyFor "EUR".data sampleObs12.Timestamp)) ++
        [keyFor "EUR".data sampleObs12.Timestamp] :=
  C2_cleanup_scan_prefix_matching (record (initState "data".data []) sampleObs12)
    "EUR".data sampleObs12.Timestamp (by decide)

/-- C2 counterexample: with an open EURUSD partition, recording the distinct
series "EUR" (a strict prefix of "EURUSD") evicts the EURUSD triple, though
the claim requires triples of other series to remain open. -/
theorem C2_prefix_eviction_cex :
    keysOf (record (initState "data".data []) sampleObs12) =
        ["EURUSD_20251118_12".data] ∧
      keysOf (record (record (initState "data".data []) sampleObs12) sampleObsEUR) =
        ["EUR_20251118_12".data] := by
  decide

/-- C6: two same-series observations in the same calendar date and hour
resolve to the same Partition Key and the same open triple (the resolve
returns the state unchanged); in different hours they resolve to different
keys; and resolving the second key (when not already open) closes the first
key's triple and registers the second. -/
theorem C6_partition_key_identity (s : RecState) (pd1 pd2 : PriceData)
    (htk : pd2.Ticker = pd1.Ticker) :
    (pd1.Timestamp.year = pd2.Timestamp.year →
      pd1.Timestamp.month = pd2.Timestamp.month →
      pd1.Timestamp.day = pd2.Timestamp.day →
      pd1.Timestamp.hour = pd2.Timestamp.hour →
      keyFor pd2.Ticker pd2.Timestamp = keyFor pd1.Ticker pd1.Timestamp ∧
        getWriter (record s pd1) pd2.Ticker pd2.Timestamp =
          (record s pd1, keyFor pd1.Ticker pd1.Timestamp)) ∧
    (pd1.Timestamp.hour < 24 → pd2.Timestamp.hour < 24 →
      pd1.Timestamp.hour ≠ pd2.Timestamp.hour →
      keyFor pd2.Ticker pd2.Timestamp ≠ keyFor pd1.Ticker pd1.Timestamp) ∧
    (keyFor pd2.Ticker pd2.Timestamp ∉ keysOf (record s pd1) →
      keyFor pd2.Ticker pd2.Timestamp ≠ keyFor pd1.Ticker pd1.Timestamp →
      keyFor pd1.Ticker pd1.Timestamp ∉ keysOf (record (record s pd1) pd2) ∧
        keyFor pd2.Ticker pd2.Timestamp ∈ keysOf (record (record s pd1) pd2)) := by
  refine ⟨?_, ?_, ?_⟩
  · intro hy hm hd hh
    have hds : dateStr pd2.Timestamp = dateStr pd1.Timestamp := by
      unfold dateStr
      rw [← hy, ← hm, ← hd]
    have hhs : hourStr pd2.Timestamp = hourStr pd1.Timestamp := by
      unfold hourStr
      rw [← hh]
    have hkey : keyFor pd2.Ticker pd2.Timestamp = keyFor pd1.Ticker pd1.Timestamp := by
      unfold keyFor mkKey
      rw [htk, hds, hhs]
    refine ⟨hkey, ?_⟩
    have hmem : keyFor pd2.Ticker pd2.Timestamp ∈ keysOf (record s pd1) := by
      rw [hkey]
      exact keyFor_mem_record s pd1
    rw [getWriter_found hmem, hkey]
  · intro hb1 hb2 hne heq
    rw [htk, keyFor_shape, keyFor_shape] at heq
    have h1 := List.append_cancel_left heq
    injection h1 with h0 h2
    obtain ⟨-, h3⟩ := List.append_inj h2 (by rw [dateStr_length, dateStr_length])
    injection h3 with h0 h4
    unfold hourStr at h4
    exact hne (pad2_inj (by omega) (by omega) h4).symm
  · intro hnotopen hne
    constructor
    · have e : pd2.Ticker ++ '_' ::
          (dateStr pd1.Timestamp ++ '_' :: hourStr pd1.Timestamp) =
          keyFor pd1.Ticker pd1.Timestamp := by
        rw [htk, ← keyFor_shape]
      apply not_mem_keys_record hnotopen
      rw [← e]
      exact evictCond_self (by rw [e]; exact hne.symm)
    · exact keyFor_mem_record (record s pd1) pd2

/-- Witness for C6 at the hourly boundary 14:59:59.999 / 15:00:00.000. -/
theorem C6_partition_key_identity_witness :
    keyFor sampleObs15.Ticker sampleObs15.Timestamp ≠
        keyFor sampleObs1459.Ticker sampleObs1459.Timestamp ∧
      keyFor sampleObs1459.Ticker sampleObs1459.Timestamp ∉
        keysOf (record (record (initState "data".data []) sampleObs1459) sampleObs15) := by
  have h := C6_partition_key_identity (initState "data".data []) sampleObs1459
    sampleObs15 (by decide)
  have hne := h.2.1 (by decide) (by decide) (by decide)
  exact ⟨hne, (h.2.2 (by decide) hne).1⟩

/-- C7: the first `Record` resolved to a partition whose backing file did
not exist at open time buffers exactly one header row before the data row; a
first `Record` to a partition whose file already exists buffers only the
data row; and a `Record` to an already-open partition appends only the data
row to the open triple (no further header). -/
theorem C7_header_once (s : RecState) (pd : PriceData) (t0 : Triple) :
    (keyFor pd.Ticker pd.Timestamp ∉ keysOf s →
      pathFor s.baseDir pd.Ticker pd.Timestamp ∉
        fsPaths (rotFs s pd.Ticker pd.Timestamp) →
      (findTriple (record s pd) (keyFor pd.Ticker pd.Timestamp)).map
        (fun t => t.csvBuf) = some [headerRow, rowOf pd]) ∧
    (keyFor pd.Ticker pd.Timestamp ∉ keysOf s →
      pathFor s.baseDir pd.Ticker pd.Timestamp ∈
        fsPaths (rotFs s pd.Ticker pd.Timestamp) →
      (findTriple (record s pd) (keyFor pd.Ticker pd.Timestamp)).map
        (fun t => t.csvBuf) = some [rowOf pd]) ∧
    (findTriple s (keyFor pd.Ticker pd.Timestamp) = some t0 →
      (findTriple (record s pd) (keyFor pd.Ticker pd.Timestamp)).map
        (fun t => t.csvBuf) = some (t0.csvBuf ++ [rowOf pd])) := by
  refine ⟨?_, ?_, ?_⟩
  · intro hnew hpath
    rw [findTriple_record_new s pd hnew]
    have hbuf : (freshTriple s pd.Ticker pd.Timestamp).csvBuf = [headerRow] := by
      unfold freshTriple
      rw [if_neg hpath]
    simp [hbuf]
  · intro hnew hpath
    rw [findTriple_record_new s pd hnew]
    have hbuf : (freshTriple s pd.Ticker pd.Timestamp).csvBuf = [] := by
      unfold freshTriple
      rw [if_pos hpath]
    simp [hbuf]
  · intro hfound
    rw [findTriple_record_open s pd hfound]
    rfl

/-- Witness for C7: a fresh EURUSD record buffers header then row; a second
record to the open partition appends only the row. -/
theorem C7_header_once_witness :
    (findTriple (record (initState "data".data []) sampleObs12)
        (keyFor sampleObs12.Ticker sampleObs12.Timestamp)).map (fun t => t.csvBuf) =
      some [headerRow, rowOf sampleObs12] ∧
    (findTriple (record plainState sampleObs12)
        (keyFor sampleObs12.Ticker sampleObs12.Timestamp)).map (fun t => t.csvBuf) =
      some (plainTriple.csvBuf ++ [rowOf sampleObs12]) := by
  refine ⟨(C7_header_once (initState "data".data []) sampleObs12 plainTriple).1
    (by decide) (by decide), ?_⟩
  exact (C7_header_once plainState sampleObs12 plainTriple).2.2 (by decide)

/-- C3 (amended): `Flush` processes the open triples in iteration order and
returns on the first error instead of continuing.  When every open triple is
healthy it drains all buffers to the file system and returns nil; when some
triple fails, the triples before it have been flushed, the failing triple's
key is reported as the error, and the triples after it are left untouched
with their buffers still unflushed. -/
theorem C3_flush_returns_first_error (s : RecState) :
    ((∀ t ∈ s.triples, t.wErr = false ∧ t.bErr = false) →
      flushAll s = ({ s with
        fs := s.triples.foldl (fun f t => fsAppend f t.path (t.bioBuf ++ t.csvBuf)) s.fs,
        triples := s.triples.map (fun t => { t with csvBuf := [], bioBuf := [] }) },
        none)) ∧
    (∀ pre t post, s.triples = pre ++ t :: post →
      (∀ u ∈ pre, u.wErr = false ∧ u.bErr = false) →
      (t.wErr = true ∨ t.bErr = true) →
      (flushAll s).2 = some t.key ∧
        (flushAll s).1.triples =
          pre.map (fun u => { u with csvBuf := [], bioBuf := [] }) ++
            (if t.wErr then t
             else { t with csvBuf := [], bioBuf := t.bioBuf ++ t.csvBuf }) :: post) := by
  constructor
  · intro h
    unfold flushAll
    rw [flushList_ok s.fs s.triples h]
  · intro pre t post hsplit hok hbad
    have h := flushList_abort s.fs pre t post hok hbad
    unfold flushAll
    rw [hsplit]
    exact ⟨h.1, h.2⟩

/-- Witness for C3's success clause on a concrete healthy state. -/
theorem C3_flush_returns_first_error_witness :
    flushAll plainState = ({ plainState with
      fs := plainState.triples.foldl
        (fun f t => fsAppend f t.path (t.bioBuf ++ t.csvBuf)) plainState.fs,
      triples := plainState.triples.map
        (fun t => { t with csvBuf := [], bioBuf := [] }) }, none) :=
  (C3_flush_returns_first_error plainState).1 (by decide)

/-- C3 counterexample: with two open triples whose first fails its flush,
`Flush` reports the first triple's error and never attempts the second
triple — its buffered row stays unflushed and nothing reaches the file
system — contradicting the claim that remaining triples are still
flushed. -/
theorem C3_flush_abort_cex :
    (flushAll failFlushState).2 = some "AAA_20251118_12".data ∧
      (flushAll failFlushState).1.triples.map (fun t => t.csvBuf) =
        [[[['1']]], [[['2']]]] ∧
      (flushAll failFlushState).1.fs = [] := by
  decide

/-- C4 (amended): `Close` flushes csv writers, then bufio buffers, then
closes files, aborting at the first error, which it returns.  Only when all
three loops succeed are the maps cleared to empty (with every buffered row
drained to the file system); on any error no triple is removed from the
maps. -/
theorem C4_close_clears_only_on_success (s : RecState) :
    ((∀ t ∈ s.triples, t.wErr = false ∧ t.bErr = false ∧ t.cErr = false) →
      closeAll s = ({ s with
        fs := s.triples.foldl (fun f t => fsAppend f t.path (t.bioBuf ++ t.csvBuf)) s.fs,
        triples := [] }, none)) ∧
    (∀ e s', closeAll s = (s', some e) → s'.triples.length = s.triples.length) := by
  constructor
  · intro h
    unfold closeAll
    rw [closeLoop1_ok s.triples (fun t ht => (h t ht).1)]
    dsimp only
    rw [closeLoop2_ok s.fs _ (fun t ht => by
      rw [List.mem_map] at ht
      obtain ⟨u, hu, rfl⟩ := ht
      exact (h u hu).2.1)]
    dsimp only
    rw [closeLoop3_ok _ (fun t ht => by
      rw [List.mem_map] at ht
      obtain ⟨v, hv, rfl⟩ := ht
      rw [List.mem_map] at hv
      obtain ⟨u, hu, rfl⟩ := hv
      exact (h u hu).2.2)]
    dsimp only
    rw [List.foldl_map]
  · intro e s' h
    unfold closeAll at h
    rcases h1 : closeLoop1 s.triples with ⟨ts1, e1⟩
    rw [h1] at h
    have hl1 : ts1.length = s.triples.length := by
      rw [← closeLoop1_length s.triples, h1]
    cases e1 with
    | some e1v =>
      dsimp only at h
      simp only [Prod.mk.injEq] at h
      rw [← h.1, hl1]
    | none =>
      dsimp only at h
      rcases h2 : closeLoop2 s.fs ts1 with ⟨fs2, ts2, e2⟩
      rw [h2] at h
      have hl2 : ts2.length = ts1.length := by
        rw [← closeLoop2_length s.fs ts1, h2]
      cases e2 with
      | some e2v =>
        dsimp only at h
        simp only [Prod.mk.injEq] at h
        rw [← h.1, hl2, hl1]
      | none =>
        dsimp only at h
        rcases h3 : closeLoop3 ts2 with - | e3v
        · rw [h3] at h
          simp at h
        · rw [h3] at h
          simp only [Prod.mk.injEq] at h
          rw [← h.1, hl2, hl1]

/-- Witness for C4's success clause on a concrete healthy state. -/
theorem C4_close_clears_only_on_success_witness :
    closeAll plainState = ({ plainState with
      fs := plainState.triples.foldl
        (fun f t => fsAppend f t.path (t.bioBuf ++ t.csvBuf)) plainState.fs,
      triples := [] }, none) :=
  (C4_close_clears_only_on_success plainState).1 (by decide)

/-- C4 counterexample: with one open triple whose file close fails, `Close`
returns that error and leaves the triple registered — the maps are not
cleared to empty, contradicting the claim that internal state is always left
empty. -/
theorem C4_close_abort_cex :
    (closeAll failCloseState).2 = some "AAA_20251118_12".data ∧
      (closeAll failCloseState).1.triples.length = 1 := by
  decide

/-! ### Price formatting lemmas (for C5) -/

lemma halfEven_intCast (m : ℤ) : halfEven ((m : ℚ)) = m := by
  unfold halfEven
  rw [Int.floor_intCast, sub_self, if_pos (by norm_num)]

lemma mem_digitsRevAux_ne_dot (f : Nat) :
    ∀ (n : Nat) (c : Char), c ∈ digitsRevAux f n → c ≠ '.' := by
  induction f with
  | zero =>
    intro n c hc
    cases n <;> simp [digitsRevAux] at hc
  | succ f ih =>
    intro n c hc
    cases n with
    | zero => simp [digitsRevAux] at hc
    | succ m =>
      rw [digitsRevAux] at hc
      rcases List.mem_cons.mp hc with h | h
      · rw [h]
        exact digitChar_ne_dot _
      · exact ih _ _ h

lemma mem_natToDigits_ne_dot {n : Nat} {c : Char} (hc : c ∈ natToDigits n) :
    c ≠ '.' := by
  unfold natToDigits at hc
  by_cases h0 : n = 0
  · rw [if_pos h0] at hc
    rw [List.mem_singleton] at hc
    rw [hc]
    decide
  · rw [if_neg h0, List.mem_reverse] at hc
    exact mem_digitsRevAux_ne_dot n n c hc

lemma digitsRevAux_length_le (f : Nat) :
    ∀ (n p : Nat), n < 10 ^ p → (digitsRevAux f n).length ≤ p := by
  induction f with
  | zero =>
    intro n p h
    cases n <;> simp [digitsRevAux]
  | succ f ih =>
    intro n p h
    cases n with
    | zero => simp [digitsRevAux]
    | succ m =>
      rw [digitsRevAux]
      simp only [List.length_cons]
      have hp : 0 < p := by
        by_contra hp0
        push_neg at hp0
        have hpz : p = 0 := by omega
        rw [hpz, pow_zero] at h
        omega
      obtain ⟨q, rfl⟩ : ∃ q, p = q + 1 := ⟨p - 1, by omega⟩
      have hq : (m + 1) / 10 < 10 ^ q := by
        rw [Nat.div_lt_iff_lt_mul (by norm_num)]
        calc m + 1 < 10 ^ (q + 1) := h
          _ = 10 ^ q * 10 := by ring
      have := ih ((m + 1) / 10) q hq
      omega

lemma natToDigits_length_le {n p : Nat} (hp : 0 < p) (h : n < 10 ^ p) :
    (natToDigits n).length ≤ p := by
  unfold natToDigits
  by_cases h0 : n = 0
  · rw [if_pos h0]
    simpa using hp
  · rw [if_neg h0, List.length_reverse]
    exact digitsRevAux_length_le n n p h

lemma padZeros_length {p : Nat} (l : List Char) (h : l.length ≤ p) :
    (padZeros p l).length = p := by
  simp [padZeros]
  omega

lemma takeWhile_all_stop (q : Char → Bool) (xs ys : List Char) (c : Char)
    (hall : ∀ x ∈ xs, q x = true) (hc : q c = false) :
    (xs ++ c :: ys).takeWhile q = xs := by
  induction xs with
  | nil => simp [List.takeWhile_cons, hc]
  | cons x xs ih =>
    have hx := hall x (List.mem_cons_self x xs)
    simp [List.takeWhile_cons, hx,
      ih (fun y hy => hall y (List.mem_cons_of_mem x hy))]

lemma fracLen_fmtScaled (n : Int) {p : Nat} (hp : 0 < p) :
    fracLen (fmtScaled n p) = p := by
  unfold fmtScaled fracLen
  rw [if_neg (show ¬ p = 0 by omega), List.reverse_append, List.reverse_cons,
    List.append_assoc, List.singleton_append]
  have hall : ∀ x ∈ (padZeros p (natToDigits (n.natAbs % 10 ^ p))).reverse,
      (fun c => decide (c ≠ '.')) x = true := by
    intro x hx
    rw [List.mem_reverse] at hx
    unfold padZeros at hx
    rcases List.mem_append.mp hx with h | h
    · rw [List.eq_of_mem_replicate h]
      decide
    · simpa using mem_natToDigits_ne_dot h
  rw [takeWhile_all_stop _ _ _ _ hall (by decide)]
  rw [List.length_reverse]
  exact padZeros_length _ (natToDigits_length_le hp
    (Nat.mod_lt _ (by positivity)))

/-- C5 (amended): for positive declared precision, `Record` writes each
price rounded half-away-from-zero at that scale and rendered with exactly
that many fractional digits; for precision 0, `roundPrice` does not round
but the formatter renders zero fractional digits — the value rounded to the
nearest integer (ties to even), not the raw value; for negative precision
the raw value is written in shortest decimal form. -/
theorem C5_price_rounding (x : ℚ) (d : Int) :
    (0 < d →
      formatFloatF (roundPrice x d) d = fmtScaled (goRound (x * 10 ^ d.toNat)) d.toNat ∧
        fracLen (formatFloatF (roundPrice x d) d) = d.toNat) ∧
    (d = 0 → formatFloatF (roundPrice x d) d = fmtScaled (halfEven x) 0) ∧
    (d < 0 → formatFloatF (roundPrice x d) d = shortestDec x) := by
  refine ⟨?_, ?_, ?_⟩
  · intro hd
    have hmain : formatFloatF (roundPrice x d) d =
        fmtScaled (goRound (x * 10 ^ d.toNat)) d.toNat := by
      unfold roundPrice
      rw [if_neg (by omega)]
      unfold formatFloatF
      rw [if_neg (by omega)]
      congr 1
      rw [div_mul_cancel₀ _ (by positivity : ((10 : ℚ) ^ d.toNat) ≠ 0)]
      exact halfEven_intCast _
    refine ⟨hmain, ?_⟩
    rw [hmain]
    exact fracLen_fmtScaled _ (by omega)
  · intro hd
    subst hd
    unfold roundPrice formatFloatF
    rw [if_pos le_rfl, if_neg (by omega)]
    congr 1
    · simp
  · intro hd
    unfold roundPrice
    rw [if_pos (show d ≤ 0 by omega)]
    unfold formatFloatF
    rw [if_pos hd]

/-- Witness for C5's positive-precision clause at precision 2 and price
3/2. -/
theorem C5_price_rounding_witness :
    formatFloatF (roundPrice (3/2) 2) 2 =
        fmtScaled (goRound ((3/2 : ℚ) * 10 ^ (2 : Int).toNat)) (2 : Int).toNat ∧
      fracLen (formatFloatF (roundPrice (3/2) 2) 2) = (2 : Int).toNat :=
  (C5_price_rounding (3/2) 2).1 (by decide)

/-- C5 counterexample: with declared precision 0 and bid exactly 1.5, the
bid field `Record` writes is "2" — the formatter rounds to zero fractional
digits — although the claim says the raw, unrounded value is written for
precision ≤ 0. -/
theorem C5_precision_zero_cex :
    (rowOf sampleObsP0).get? 4 =
        some (formatFloatF (roundPrice (3/2) 0) 0) ∧
      formatFloatF (roundPrice (3/2) 0) 0 = ['2'] ∧
      sampleObsP0.Bid = 3/2 ∧ (3/2 : ℚ) ≠ 2 := by
  have h0 : roundPrice (3/2 : ℚ) 0 = 3/2 := by
    unfold roundPrice
    rw [if_pos le_rfl]
  have hfloor : (⌊(3/2 : ℚ)⌋ : ℤ) = 1 := by norm_num
  have h2 : halfEven ((3/2 : ℚ) * 10 ^ (0 : Int).toNat) = 2 := by
    rw [show ((3/2 : ℚ) * 10 ^ (0 : Int).toNat) = 3/2 by norm_num]
    unfold halfEven
    rw [hfloor]
    rw [if_neg (by norm_num), if_neg (by norm_num), if_neg (by decide)]
    decide
  have h3 : formatFloatF (roundPrice (3/2) 0) 0 = fmtScaled 2 0 := by
    rw [h0]
    unfold formatFloatF
    rw [if_neg (by omega), h2]
    exact rfl
  refine ⟨rfl, ?_, rfl, by norm_num⟩
  rw [h3]
  decide

/-- C8 (amended): the RFC3339Nano timestamp encoding written by `Record` is
lossless at nanosecond resolution (injective on valid UTC times) and ends
with the explicit UTC designator; lexicographic order agrees with
chronological order whenever the two encodings carry the same number of
fractional-second digits — but not in general, because trailing zeros of the
fraction are trimmed. -/
theorem C8_timestamp_encoding (t1 t2 : GoTime) (h1 : t1.Valid) (h2 : t2.Valid) :
    (formatRFC3339Nano t1 = formatRFC3339Nano t2 → t1 = t2) ∧
    (∃ pre, formatRFC3339Nano t1 = pre ++ ['Z']) ∧
    ((fracNano t1.nsec).length = (fracNano t2.nsec).length →
      (formatRFC3339Nano t1 < formatRFC3339Nano t2 ↔ t1.chronLT t2)) :=
  ⟨formatRFC_inj h1 h2,
    ⟨fixed19 t1 ++ fracNano t1.nsec, rfl⟩,
    fun hlen => formatRFC_lt_iff h1 h2 hlen⟩

/-- Witness for C8 on two valid times an hour apart. -/
theorem C8_timestamp_encoding_witness :
    formatRFC3339Nano ⟨2025, 11, 18, 12, 0, 0, 0⟩ <
        formatRFC3339Nano ⟨2025, 11, 18, 13, 0, 0, 0⟩ ↔
      GoTime.chronLT ⟨2025, 11, 18, 12, 0, 0, 0⟩ ⟨2025, 11, 18, 13, 0, 0, 0⟩ :=
  (C8_timestamp_encoding ⟨2025, 11, 18, 12, 0, 0, 0⟩ ⟨2025, 11, 18, 13, 0, 0, 0⟩
    (by decide) (by decide)).2.2 (by decide)

/-- C8 counterexample: 12:00:00 precedes 12:00:00.5 chronologically, but its
encoding "…12:00:00Z" sorts lexicographically after "…12:00:00.5Z", because
the zero fraction is trimmed entirely — the encoding is not sortable. -/
theorem C8_not_sortable_cex :
    GoTime.chronLT ⟨2025, 11, 18, 12, 0, 0, 0⟩ ⟨2025, 11, 18, 12, 0, 0, 500000000⟩ ∧
      formatRFC3339Nano ⟨2025, 11, 18, 12, 0, 0, 500000000⟩ <
        formatRFC3339Nano ⟨2025, 11, 18, 12, 0, 0, 0⟩ := by
  decide

/-- C9: on a service whose periodic-flush ticker is running, `Stop` performs
exactly these steps in order — stop the ticker, close the stopFlush channel,
cancel the context, one final recorder flush, websocket close, recorder
close — regardless of which steps fail; it always runs to completion, ends
with the recorder flushed then closed, and returns nil. -/
theorem C9_stop_ordering (svc : ServiceState) (hticker : svc.flushTickerSet = true) :
    (serviceStop svc).1.trace = svc.trace ++
      [StopStep.tickerStop, StopStep.stopFlushClose, StopStep.cancelSignal,
       StopStep.finalFlush, StopStep.wsClose, StopStep.recClose] ∧
    (serviceStop svc).1.cancelled = true ∧
    (serviceStop svc).1.wsOpen = false ∧
    (serviceStop svc).1.recorder = (closeAll (flushAll svc.recorder).1).1 ∧
    (serviceStop svc).2 = none := by
  unfold serviceStop
  rw [if_pos hticker]
  refine ⟨?_, rfl, rfl, rfl, rfl⟩
  simp

/-- Witness for C9 on a running service whose flush and websocket close both
fail. -/
theorem C9_stop_ordering_witness :
    (serviceStop sampleService).1.trace = sampleService.trace ++
      [StopStep.tickerStop, StopStep.stopFlushClose, StopStep.cancelSignal,
       StopStep.finalFlush, StopStep.wsClose, StopStep.recClose] ∧
    (serviceStop sampleService).1.cancelled = true ∧
    (serviceStop sampleService).1.wsOpen = false ∧
    (serviceStop sampleService).1.recorder =
      (closeAll (flushAll sampleService.recorder).1).1 ∧
    (serviceStop sampleService).2 = none :=
  C9_stop_ordering sampleService (by decide)

/-- C10: `Stop` always returns nil: a failing final flush is only appended
to the log, and likewise for the other steps, so a caller can never observe
a shutdown failure through Stop's return value. -/
theorem C10_stop_returns_nil (svc : ServiceState) :
    (serviceStop svc).2 = none ∧
    (∀ e, (flushAll svc.recorder).2 = some e →
      ("final flush error: ".data ++ e) ∈ (serviceStop svc).1.log) := by
  constructor
  · unfold serviceStop
    split <;> rfl
  · intro e he
    unfold serviceStop
    split <;> (dsimp only; rw [he]; simp [List.mem_append])

/-- Witness for C10 on a service whose final recorder flush fails. -/
theorem C10_stop_returns_nil_witness :
    (serviceStop sampleService).2 = none ∧
      ("final flush error: ".data ++ "AAA_20251118_12".data) ∈
        (serviceStop sampleService).1.log :=
  ⟨(C10_stop_returns_nil sampleService).1,
    (C10_stop_returns_nil sampleService).2 "AAA_20251118_12".data (by decide)⟩

end FxCollector
